import Mathlib

/-!
Verification development for the navis ontology/calculation core.

The row structures below are shallow embeddings of the Django models in
`navis_tdjango/models.py`: one structure per table, one field per column,
with foreign keys as `Nat` ids (nullable ones as `Option Nat`), decimals
abstracted to `Int`, and timestamps to `Nat`.  The operations embed the
write/delete paths the repository itself provides (the admin screens in
`navis_tdjango/admin.py` over those models, and Django's delete collector
driven by the `on_delete` flags declared on each foreign key).  Operations
the repository does not contain (the model resolver, the structural-version
observer) are modelled from the specification and marked as such in their
doc comments.
-/

namespace Navis

/-- Row of table `navis_concept` (`Concept` in models.py): key, label,
kind ∈ {"O","P","A","I"}, nullable self-FK `root_lv2` (on_delete=PROTECT),
description, active flag, timestamps. -/
structure ConceptRow where
  id : Nat
  key : String
  label : String
  kind : String
  root_lv2 : Option Nat
  description : String
  is_active : Bool
  created_at : Nat
  updated_at : Nat
  deriving DecidableEq, Repr

/-- Row of table `navis_relation_type` (`RelationType` in models.py).
The `alias` column is rendered `alias_` because `alias` is a Lean keyword. -/
structure RelationTypeRow where
  id : Nat
  key : String
  alias_ : Option String
  label : String
  description : String
  parent : Option Nat
  is_base : Bool
  is_active : Bool
  created_at : Nat
  updated_at : Nat
  deriving DecidableEq, Repr

/-- Row of table `navis_edge` (`Edge` in models.py): FK `from_concept`
(CASCADE), FK `relation_type` (PROTECT), FK `to_concept` (CASCADE),
nullable decimal weight (abstracted to `Int`), timestamps.  The model
deliberately declares no uniqueness constraint on the triple. -/
structure EdgeRow where
  id : Nat
  from_concept : Nat
  relation_type : Nat
  to_concept : Nat
  weight : Option Int
  created_at : Nat
  updated_at : Nat
  deriving DecidableEq, Repr

/-- Row of table `navis_formula` (`Formula` in models.py): OneToOne FK
`concept` (primary key, on_delete=CASCADE), language, expression text,
updated_at. -/
structure FormulaRow where
  concept : Nat
  language : String
  expression : String
  updated_at : Nat
  deriving DecidableEq, Repr

/-- Row of table `navis_info_value` (`InfoValue` in models.py): OneToOne FK
`concept` (primary key, on_delete=CASCADE), nullable numeric value
(abstracted to `Int`), nullable text value, unit, updated_at. -/
structure InfoValueRow where
  concept : Nat
  value_num : Option Int
  value_text : Option String
  unit : String
  updated_at : Nat
  deriving DecidableEq, Repr

/-- Row of table `calc_model` (`CalcModel` in models.py): unique model_key,
description, created_at.  No updated_at column exists on this table. -/
structure CalcModelRow where
  id : Nat
  model_key : String
  description : String
  created_at : Nat
  deriving DecidableEq, Repr

/-- Row of table `calc_block` (`CalcBlock` in models.py): unique block_key,
description.  No timestamp columns exist on this table. -/
structure CalcBlockRow where
  id : Nat
  block_key : String
  description : String
  deriving DecidableEq, Repr

/-- Row of table `calc_model_assembly` (`CalcModelAssembly` in models.py):
FK `model` (CASCADE), FK `block` (CASCADE), `order_no`, with
unique_together (model, block).  The table has no timestamp columns. -/
structure CalcModelAssemblyRow where
  id : Nat
  model : Nat
  block : Nat
  order_no : Nat
  deriving DecidableEq, Repr

/-- Row of table `calc_block_formula` (`CalcBlockFormula` in models.py):
FK `block` (CASCADE), FK `formula_concept` (PROTECT), with unique_together
(block, formula_concept).  The table has no timestamp columns. -/
structure CalcBlockFormulaRow where
  id : Nat
  block : Nat
  formula_concept : Nat
  deriving DecidableEq, Repr

/-- Row of table `navis_edge_attr` (`EdgeAttribute` in models.py):
FK `edge` (CASCADE), key, value_text, unique_together (edge, key). -/
structure EdgeAttributeRow where
  id : Nat
  edge : Nat
  key : String
  value_text : String
  deriving DecidableEq, Repr

/-- The persisted database state: one list of rows per table of the
schema declared in models.py. -/
structure DB where
  concepts : List ConceptRow
  relation_types : List RelationTypeRow
  edges : List EdgeRow
  formulas : List FormulaRow
  info_values : List InfoValueRow
  calc_models : List CalcModelRow
  calc_blocks : List CalcBlockRow
  assemblies : List CalcModelAssemblyRow
  block_formulas : List CalcBlockFormulaRow
  edge_attrs : List EdgeAttributeRow
  deriving DecidableEq, Repr

/-- The empty database. -/
def dbEmpty : DB :=
  ⟨[], [], [], [], [], [], [], [], [], []⟩

/-- Error taxonomy of the specification (§7), restricted to the outcomes
the embedded operations can produce. -/
inductive NavisError where
  | protectedReference
  | notFound
  | orphanReference
  | validationError
  deriving DecidableEq, Repr

instance {ε α : Type} [DecidableEq ε] [DecidableEq α] :
    DecidableEq (Except ε α) := fun a b =>
  match a, b with
  | Except.ok x, Except.ok y =>
    if h : x = y then isTrue (by rw [h])
    else isFalse (fun hc => h (Except.ok.inj hc))
  | Except.error x, Except.error y =>
    if h : x = y then isTrue (by rw [h])
    else isFalse (fun hc => h (Except.error.inj hc))
  | Except.ok _, Except.error _ => isFalse (fun hc => Except.noConfusion hc)
  | Except.error _, Except.ok _ => isFalse (fun hc => Except.noConfusion hc)

end Navis

namespace Navis

/-! ### A deterministic insertion sort with a boolean comparator

Used to embed the deterministic orderings the calculation-assembly layer
relies on (ascending `order_no`, ascending concept key). -/

/-- Insert `x` into `l` in front of the first element `y` with `le x y`. -/
def insertLe {α : Type} (le : α → α → Bool) (x : α) : List α → List α
  | [] => [x]
  | y :: ys => if le x y then x :: y :: ys else y :: insertLe le x ys

/-- Deterministic insertion sort with comparator `le`. -/
def sortLe {α : Type} (le : α → α → Bool) : List α → List α
  | [] => []
  | x :: xs => insertLe le x (sortLe le xs)

theorem mem_insertLe {α : Type} (le : α → α → Bool) (x : α) :
    ∀ (l : List α) (b : α), b ∈ insertLe le x l → b = x ∨ b ∈ l := by
  intro l
  induction l with
  | nil =>
    intro b hb
    simp [insertLe] at hb
    exact Or.inl hb
  | cons y ys ih =>
    intro b hb
    by_cases h : le x y = true
    · simp [insertLe, h] at hb
      rcases hb with hb | hb | hb
      · exact Or.inl hb
      · exact Or.inr (by simp [hb])
      · exact Or.inr (by simp [hb])
    · simp [insertLe, h] at hb
      rcases hb with hb | hb
      · exact Or.inr (by simp [hb])
      · rcases ih b hb with hb' | hb'
        · exact Or.inl hb'
        · exact Or.inr (by simp [hb'])

theorem perm_insertLe {α : Type} (le : α → α → Bool) (x : α) :
    ∀ l : List α, List.Perm (insertLe le x l) (x :: l) := by
  intro l
  induction l with
  | nil => simp [insertLe]
  | cons y ys ih =>
    by_cases h : le x y = true
    · simp [insertLe, h]
    · simp only [insertLe, h, if_neg]
      exact List.Perm.trans (List.Perm.cons y ih) (List.Perm.swap x y ys)

theorem perm_sortLe {α : Type} (le : α → α → Bool) :
    ∀ l : List α, List.Perm (sortLe le l) l := by
  intro l
  induction l with
  | nil => simp [sortLe]
  | cons x xs ih =>
    exact List.Perm.trans (perm_insertLe le x (sortLe le xs)) (List.Perm.cons x ih)

theorem pairwise_insertLe {α : Type} (le : α → α → Bool)
    (htot : ∀ a b, le a b = true ∨ le b a = true)
    (htrans : ∀ a b c, le a b = true → le b c = true → le a c = true)
    (x : α) :
    ∀ l : List α, l.Pairwise (fun a b => le a b = true) →
      (insertLe le x l).Pairwise (fun a b => le a b = true) := by
  intro l
  induction l with
  | nil =>
    intro _
    simp [insertLe]
  | cons y ys ih =>
    intro hp
    rcases List.pairwise_cons.mp hp with ⟨hy, hys⟩
    by_cases h : le x y = true
    · simp only [insertLe, h, if_pos]
      refine List.pairwise_cons.mpr ⟨?_, hp⟩
      intro b hb
      rcases List.mem_cons.mp hb with hb | hb
      · exact hb ▸ h
      · exact htrans x y b h (hy b hb)
    · simp only [insertLe, h, if_neg]
      refine List.pairwise_cons.mpr ⟨?_, ih hys⟩
      intro b hb
      rcases mem_insertLe le x (ys) b hb with hb' | hb'
      · rcases htot x y with hxy | hyx
        · exact absurd hxy h
        · rw [hb']
          exact hyx
      · exact hy b hb'

theorem pairwise_sortLe {α : Type} (le : α → α → Bool)
    (htot : ∀ a b, le a b = true ∨ le b a = true)
    (htrans : ∀ a b c, le a b = true → le b c = true → le a c = true) :
    ∀ l : List α, (sortLe le l).Pairwise (fun a b => le a b = true) := by
  intro l
  induction l with
  | nil => simp [sortLe]
  | cons x xs ih => exact pairwise_insertLe le htot htrans x (sortLe le xs) ih

/-! ### Edge creation (EdgeStore)

`Edge` in models.py declares no uniqueness constraint on
(from_concept, relation_type, to_concept); the Meta comment states this is
deliberate.  The foreign keys require the endpoints and the relation type
to exist.  Fresh ids are one above the current maximum edge id. -/

/-- Largest edge id currently in use (0 when there are no edges). -/
def maxEdgeId (db : DB) : Nat :=
  (db.edges.map (fun e => e.id)).foldr max 0

/-- Create an edge row exactly as the schema admits it: both endpoints and
the relation type must exist (FK integrity), and no uniqueness check is
performed on the (from, relation_type, to) triple. -/
def createEdge (db : DB) (f rt t : Nat) (w : Option Int) (now : Nat) :
    Except NavisError (DB × Nat) :=
  if (db.concepts.any (fun c => c.id == f)) &&
     (db.concepts.any (fun c => c.id == t)) &&
     (db.relation_types.any (fun r => r.id == rt)) then
    let nid := maxEdgeId db + 1
    Except.ok ({ db with edges := db.edges ++ [⟨nid, f, rt, t, w, now, now⟩] }, nid)
  else
    Except.error NavisError.notFound

/-! ### Scalar overlays (Formula / InfoValue)

The repository's write path for `Formula` and `InfoValue` rows is the
admin (FormulaAdmin / InfoValueAdmin over the models): it inserts or
updates the OneToOne row for a chosen existing concept.  Neither the
models nor the admin impose any restriction on the concept's kind, and
neither imposes any requirement that `value_num` or `value_text` be
non-null (both columns are `null=True, blank=True` and no `clean`
method or check constraint exists). -/

/-- Attach or overwrite the Formula row of a concept.  Fails with
`notFound` only when no concept with that id exists (FK integrity);
no check on the concept's kind exists anywhere in the source. -/
def setFormula (db : DB) (cid : Nat) (lang expr : String) (now : Nat) :
    Except NavisError DB :=
  if db.concepts.any (fun c => c.id == cid) then
    if db.formulas.any (fun f => f.concept == cid) then
      Except.ok { db with formulas := db.formulas.map (fun f =>
        if f.concept == cid then ⟨cid, lang, expr, now⟩ else f) }
    else
      Except.ok { db with formulas := db.formulas ++ [⟨cid, lang, expr, now⟩] }
  else
    Except.error NavisError.notFound

/-- Attach or overwrite the InfoValue row of a concept.  Fails with
`notFound` only when no concept with that id exists; both value columns
are nullable and the source performs no validation that at least one of
them is set. -/
def setValue (db : DB) (cid : Nat) (vn : Option Int) (vt : Option String)
    (unit : String) (now : Nat) : Except NavisError DB :=
  if db.concepts.any (fun c => c.id == cid) then
    if db.info_values.any (fun v => v.concept == cid) then
      Except.ok { db with info_values := db.info_values.map (fun v =>
        if v.concept == cid then ⟨cid, vn, vt, unit, now⟩ else v) }
    else
      Except.ok { db with info_values := db.info_values ++ [⟨cid, vn, vt, unit, now⟩] }
  else
    Except.error NavisError.notFound

/-! ### Deletion, following Django's collector over the declared on_delete
flags.

For a `Concept`: `Edge.from_concept` and `Edge.to_concept` CASCADE,
`EdgeAttribute.edge` CASCADE (through the collected edges),
`Formula.concept` CASCADE, `InfoValue.concept` CASCADE,
`CalcBlockFormula.formula_concept` PROTECT, `Concept.root_lv2` PROTECT.
A protected reference aborts the whole deletion with no effect.

For a `CalcBlock` / `CalcModel`: `CalcModelAssembly.model`,
`CalcModelAssembly.block` and `CalcBlockFormula.block` all CASCADE, and
no foreign key in the schema protects either table, so deletion always
succeeds and removes exactly the join rows. -/

/-- True when a PROTECT foreign key references concept `cid`:
a `CalcBlockFormula.formula_concept` or a child's `root_lv2`. -/
def conceptProtected (db : DB) (cid : Nat) : Bool :=
  db.block_formulas.any (fun bf => bf.formula_concept == cid) ||
  db.concepts.any (fun c => c.root_lv2 == some cid)

/-- Delete a concept: blocked by PROTECT references (CalcBlockFormula rows
and child concepts), otherwise cascades to its endpoint edges, the
attributes of those edges, and its Formula/InfoValue rows. -/
def deleteConcept (db : DB) (cid : Nat) : Except NavisError DB :=
  if db.concepts.any (fun c => c.id == cid) then
    if conceptProtected db cid then
      Except.error NavisError.protectedReference
    else
      Except.ok { db with
        concepts := db.concepts.filter (fun c => !(c.id == cid)),
        edges := db.edges.filter (fun e =>
          !(e.from_concept == cid || e.to_concept == cid)),
        edge_attrs := db.edge_attrs.filter (fun a =>
          !(db.edges.any (fun e =>
            (e.from_concept == cid || e.to_concept == cid) && e.id == a.edge))),
        formulas := db.formulas.filter (fun f => !(f.concept == cid)),
        info_values := db.info_values.filter (fun v => !(v.concept == cid)) }
  else
    Except.error NavisError.notFound

/-- Delete a calculation block: no PROTECT foreign key targets
`calc_block`, so the deletion always succeeds and cascades exactly its
`CalcModelAssembly` and `CalcBlockFormula` join rows. -/
def deleteCalcBlock (db : DB) (bid : Nat) : Except NavisError DB :=
  if db.calc_blocks.any (fun b => b.id == bid) then
    Except.ok { db with
      calc_blocks := db.calc_blocks.filter (fun b => !(b.id == bid)),
      assemblies := db.assemblies.filter (fun a => !(a.block == bid)),
      block_formulas := db.block_formulas.filter (fun bf => !(bf.block == bid)) }
  else
    Except.error NavisError.notFound

/-- Delete a calculation model: no PROTECT foreign key targets
`calc_model`, so the deletion always succeeds and cascades exactly its
`CalcModelAssembly` join rows. -/
def deleteCalcModel (db : DB) (mid : Nat) : Except NavisError DB :=
  if db.calc_models.any (fun m => m.id == mid) then
    Except.ok { db with
      calc_models := db.calc_models.filter (fun m => !(m.id == mid)),
      assemblies := db.assemblies.filter (fun a => !(a.model == mid)) }
  else
    Except.error NavisError.notFound

/-! ### Concept writes through the admin (admin.py)

The repository's only write paths for concepts are the two admin screens:

* `ConceptLevel1Admin`: its queryset is `root_lv2__isnull=True`, so it can
  only edit root concepts (or create new ones), and its `save_model`
  forces `root_lv2 = None`.  All other form fields (key, label, kind,
  is_active, description) are freely editable.
* `ConceptLevel2Admin`: its queryset is `root_lv2__isnull=False`, so it
  can only edit concepts that already have a parent (or create new ones);
  the `root_lv2` form field is required and its choices are restricted to
  root concepts (`formfield_for_foreignkey` and the model field's
  `limit_choices_to`); its `save_model` copies `kind` from the chosen
  parent. -/

/-- An admin save operation on the concept table. -/
inductive AdminOp where
  | saveLevel1 (id : Nat) (key label kind : String) (act : Bool) (now : Nat)
  | saveLevel2 (id : Nat) (key label : String) (root : Nat) (act : Bool) (now : Nat)
  deriving DecidableEq, Repr

/-- Row written by a level-1 admin save over an existing row `c`:
`save_model` forces `root_lv2 = None`; key, label, kind and the active
flag come from the form; description and created_at keep their stored
values. -/
def level1Row (i : Nat) (k l kd : String) (act : Bool) (now : Nat)
    (c : ConceptRow) : ConceptRow :=
  ⟨i, k, l, kd, none, c.description, act, c.created_at, now⟩

/-- Row written by a level-2 admin save over an existing row `c`:
`save_model` copies `kind` from the chosen parent and stores the chosen
root. -/
def level2Row (i : Nat) (k l : String) (r : Nat) (kd : String) (act : Bool)
    (now : Nat) (c : ConceptRow) : ConceptRow :=
  ⟨i, k, l, kd, some r, c.description, act, c.created_at, now⟩

/-- UPDATE ... WHERE id = i: replace each row whose id is `i` by `f`
of that row. -/
def updateById (l : List ConceptRow) (i : Nat)
    (f : ConceptRow → ConceptRow) : List ConceptRow :=
  l.map (fun c => if c.id == i then f c else c)

/-- Apply one admin save; `none` means the admin rejects the request
(object outside the screen's queryset, or parent outside the root-only
choice set). -/
def applyOp (db : DB) : AdminOp → Option DB
  | AdminOp.saveLevel1 i k l kd act now =>
    match db.concepts.find? (fun c => c.id == i) with
    | some c =>
      if c.root_lv2 = none then
        some { db with
          concepts := updateById db.concepts i (level1Row i k l kd act now) }
      else
        none
    | none =>
      some { db with
        concepts := db.concepts ++ [⟨i, k, l, kd, none, "", act, now, now⟩] }
  | AdminOp.saveLevel2 i k l r act now =>
    match db.concepts.find? (fun p => p.id == r) with
    | some p =>
      if p.root_lv2 = none then
        match db.concepts.find? (fun c => c.id == i) with
        | some c =>
          if c.root_lv2 ≠ none then
            some { db with
              concepts := updateById db.concepts i (level2Row i k l r p.kind act now) }
          else
            none
        | none =>
          some { db with
            concepts := db.concepts ++ [⟨i, k, l, p.kind, some r, "", act, now, now⟩] }
      else
        none
    | none =>
      none

/-- Apply a sequence of admin saves, ignoring rejected ones. -/
def applyOps (db : DB) (ops : List AdminOp) : DB :=
  ops.foldl (fun d op => (applyOp d op).getD d) db

/-- Primary keys of the concept table are unique. -/
def idsNodup (db : DB) : Prop :=
  (db.concepts.map (fun c => c.id)).Nodup

/-- Referential integrity of the self-FK `root_lv2`: every parent
reference points at an existing concept row. -/
def fkOk (db : DB) : Prop :=
  ∀ c ∈ db.concepts, c.root_lv2 = none ∨
    ∃ p ∈ db.concepts, c.root_lv2 = some p.id

/-- The depth-2 ownership invariant: a concept used as a parent is itself
parentless. -/
def depth2 (db : DB) : Prop :=
  ∀ c ∈ db.concepts, ∀ p ∈ db.concepts,
    c.root_lv2 = some p.id → p.root_lv2 = none

/-- Kind inheritance as a global state property: every concept with a
parent has its parent's kind. -/
def kindInherit (db : DB) : Prop :=
  ∀ c ∈ db.concepts, ∀ p ∈ db.concepts,
    c.root_lv2 = some p.id → c.kind = p.kind

/-- Well-formedness bundle preserved by the admin write paths. -/
def conceptWf (db : DB) : Prop :=
  idsNodup db ∧ fkOk db ∧ depth2 db

instance (db : DB) : Decidable (idsNodup db) := by
  unfold idsNodup
  exact List.nodupDecidable _

instance (db : DB) : Decidable (fkOk db) := by
  unfold fkOk
  infer_instance

instance (db : DB) : Decidable (depth2 db) := by
  unfold depth2
  infer_instance

instance (db : DB) : Decidable (kindInherit db) := by
  unfold kindInherit
  infer_instance

instance (db : DB) : Decidable (conceptWf db) := by
  unfold conceptWf
  infer_instance

/-! ### Mutating an edge / reordering a model's blocks

`Edge.updated_at` is declared `DateTimeField(default=timezone.now)` —
the default is evaluated only when a row is created, and the field is in
`readonly_fields` on every admin screen, so saving a changed weight
leaves `updated_at` exactly as it was.  `CalcModelAssembly` (whose
`order_no` is editable in its admin's list view) has no timestamp column
at all. -/

/-- Update an edge's weight, as the Edge admin saves it: all other
columns, `updated_at` included, keep their stored values. -/
def updateEdgeWeight (db : DB) (eid : Nat) (w : Option Int) : DB :=
  { db with edges := db.edges.map (fun e =>
      if e.id == eid then { e with weight := w } else e) }

/-- Change the `order_no` of an assembly row, as the CalcModelAssembly
admin saves it: the table has no timestamp column to touch. -/
def reorderAssembly (db : DB) (aid n : Nat) : DB :=
  { db with assemblies := db.assemblies.map (fun a =>
      if a.id == aid then { a with order_no := n } else a) }

/-- Key of a relation type row, by id. -/
def relTypeKey (db : DB) (rid : Nat) : Option String :=
  (db.relation_types.find? (fun r => r.id == rid)).map (fun r => r.key)

/-- Outgoing edges of a concept whose relation type is "describes". -/
def describesEdges (db : DB) (cid : Nat) : List EdgeRow :=
  db.edges.filter (fun e =>
    e.from_concept == cid && relTypeKey db e.relation_type == some "describes")

/-- The formula concepts referenced by a model's blocks. -/
def modelFormulaConcepts (db : DB) (mid : Nat) : List Nat :=
  (db.assemblies.filter (fun a => a.model == mid)).flatMap (fun a =>
    (db.block_formulas.filter (fun bf => bf.block == a.block)).map
      (fun bf => bf.formula_concept))

/-- Modelled from the spec: `structural_version(model_key)` (§4.7) is
absent from the source; the spec defines it as max(updated_at) over the
model's assembly rows, its blocks' formula-join rows, and the "describes"
edges reachable from those formulas.  In the source schema only the
edges carry an `updated_at` column — `calc_model_assembly` and
`calc_block_formula` have none — so the maximum ranges over the
describes edges alone (0 when there are none). -/
def structuralVersion (db : DB) (mk : String) : Nat :=
  match db.calc_models.find? (fun m => m.model_key == mk) with
  | none => 0
  | some m =>
    ((modelFormulaConcepts db m.id).flatMap (fun cid =>
      (describesEdges db cid).map (fun e : EdgeRow => e.updated_at))).foldr max 0

/-! ### Model resolution (CalcAssembly)

Modelled from the spec: no resolver exists under the source tree (the
repository contains only the schema and the admin); `resolve_model` is
embedded from §4.6 of the specification over the source schema: load the
model's assembly rows, sort ascending by `order_no`, per block sort the
formula-concept references by concept key, require a Formula row for each
reference (else OrphanReference), and concatenate in block order. -/

/-- One entry of a resolved execution plan: the owning block's order and
id, the formula concept's key, and its expression text. -/
structure PlanEntry where
  order_no : Nat
  block : Nat
  concept_key : String
  expression : String
  deriving DecidableEq, Repr

/-- Lexicographic ≤ on code-point sequences — the order Python's `sorted`
gives on strings, used as the deterministic secondary order on concept
keys. -/
def strLeB : List Char → List Char → Bool
  | [], _ => true
  | _ :: _, [] => false
  | a :: as, b :: bs =>
    if a.toNat < b.toNat then true
    else if b.toNat < a.toNat then false
    else strLeB as bs

/-- Lexicographic code-point ≤ on strings. -/
def keyLe (s t : String) : Bool :=
  strLeB s.data t.data

/-- Pair each formula reference of a block with its concept key
(OrphanReference when the referenced concept row is missing). -/
def refKeys (db : DB) : List CalcBlockFormulaRow →
    Except NavisError (List (String × Nat))
  | [] => Except.ok []
  | bf :: rest =>
    match db.concepts.find? (fun c => c.id == bf.formula_concept) with
    | none => Except.error NavisError.orphanReference
    | some c =>
      match refKeys db rest with
      | Except.ok l => Except.ok ((c.key, bf.formula_concept) :: l)
      | Except.error e => Except.error e

/-- Attach the expression of each (key-sorted) formula reference,
failing with OrphanReference when a reference has no Formula row. -/
def withExprs (db : DB) (ordNo bid : Nat) : List (String × Nat) →
    Except NavisError (List PlanEntry)
  | [] => Except.ok []
  | (k, cid) :: rest =>
    match db.formulas.find? (fun f => f.concept == cid) with
    | none => Except.error NavisError.orphanReference
    | some f =>
      match withExprs db ordNo bid rest with
      | Except.ok l => Except.ok (⟨ordNo, bid, k, f.expression⟩ :: l)
      | Except.error e => Except.error e

/-- Resolve one block of a model: its formula references sorted by
concept key, each carrying its expression. -/
def blockPlan (db : DB) (a : CalcModelAssemblyRow) :
    Except NavisError (List PlanEntry) :=
  match refKeys db (db.block_formulas.filter (fun bf => bf.block == a.block)) with
  | Except.error e => Except.error e
  | Except.ok refs =>
    withExprs db a.order_no a.block
      (sortLe (fun x y => keyLe x.1 y.1) refs)

/-- Resolve a list of assembly rows in order, concatenating the blocks'
entries. -/
def resolveRows (db : DB) : List CalcModelAssemblyRow →
    Except NavisError (List PlanEntry)
  | [] => Except.ok []
  | a :: rest =>
    match blockPlan db a with
    | Except.error e => Except.error e
    | Except.ok l =>
      match resolveRows db rest with
      | Except.error e => Except.error e
      | Except.ok ls => Except.ok (l ++ ls)

/-- Modelled from the spec: `resolve_model(model_key)` (§4.6). -/
def resolveModel (db : DB) (mk : String) : Except NavisError (List PlanEntry) :=
  match db.calc_models.find? (fun m => m.model_key == mk) with
  | none => Except.error NavisError.notFound
  | some m =>
    resolveRows db
      (sortLe (fun a b => decide (a.order_no ≤ b.order_no))
        (db.assemblies.filter (fun a => a.model == m.id)))

/-! ### Helper lemmas -/

theorem foldr_max_append (l : List Nat) (x : Nat) :
    (l ++ [x]).foldr max 0 = max (l.foldr max 0) x := by
  induction l with
  | nil => simp
  | cons a l ih =>
    simp only [List.cons_append, List.foldr_cons, ih]
    exact (Nat.max_assoc a (l.foldr max 0) x).symm

theorem le_foldr_max (l : List Nat) (x : Nat) (hx : x ∈ l) :
    x ≤ l.foldr max 0 := by
  induction l with
  | nil => cases hx
  | cons a l ih =>
    rcases List.mem_cons.mp hx with h | h
    · exact h ▸ Nat.le_max_left a (l.foldr max 0)
    · exact Nat.le_trans (ih h) (Nat.le_max_right a (l.foldr max 0))

end Navis

namespace Navis

/-! ### Claim theorems: edge multi-set behaviour (C5) -/

/-- When both endpoints and the relation type exist, `createEdge` simply
appends a fresh row — no uniqueness check is consulted. -/
theorem createEdge_ok (db : DB) (f rt t : Nat) (w : Option Int) (n : Nat)
    (hf : db.concepts.any (fun c => c.id == f) = true)
    (ht : db.concepts.any (fun c => c.id == t) = true)
    (hr : db.relation_types.any (fun r => r.id == rt) = true) :
    createEdge db f rt t w n = Except.ok
      ({ db with edges := db.edges ++ [⟨maxEdgeId db + 1, f, rt, t, w, n, n⟩] },
        maxEdgeId db + 1) := by
  have hcond : ((db.concepts.any fun c => c.id == f) &&
      (db.concepts.any fun c => c.id == t) &&
      (db.relation_types.any fun r => r.id == rt)) = true := by
    simp [hf, ht, hr]
  unfold createEdge
  rw [if_pos hcond]

/-- C5: creating an edge with the same (from, relation_type, to) triple
twice succeeds both times — both endpoint concepts and the relation type
exist — and yields two distinct edges (distinct ids); no uniqueness
constraint rejects the duplicate, so the second database holds two more
rows with that triple than the first. -/
theorem createEdge_duplicate_succeeds (db : DB) (f rt t : Nat) (w : Option Int)
    (n1 n2 : Nat)
    (hf : db.concepts.any (fun c => c.id == f) = true)
    (ht : db.concepts.any (fun c => c.id == t) = true)
    (hr : db.relation_types.any (fun r => r.id == rt) = true) :
    ∃ db1 e1 db2 e2,
      createEdge db f rt t w n1 = Except.ok (db1, e1) ∧
      createEdge db1 f rt t w n2 = Except.ok (db2, e2) ∧
      e1 ≠ e2 ∧
      (db2.edges.filter (fun e =>
          e.from_concept == f && e.relation_type == rt && e.to_concept == t)).length =
        (db.edges.filter (fun e =>
          e.from_concept == f && e.relation_type == rt && e.to_concept == t)).length + 2 := by
  have h1 := createEdge_ok db f rt t w n1 hf ht hr
  have h2 := createEdge_ok
    { db with edges := db.edges ++ [⟨maxEdgeId db + 1, f, rt, t, w, n1, n1⟩] }
    f rt t w n2 hf ht hr
  have hmax : maxEdgeId
      { db with edges := db.edges ++ [⟨maxEdgeId db + 1, f, rt, t, w, n1, n1⟩] } =
      maxEdgeId db + 1 := by
    show ((db.edges ++ [(⟨maxEdgeId db + 1, f, rt, t, w, n1, n1⟩ : EdgeRow)]).map
      (fun e => e.id)).foldr max 0 = maxEdgeId db + 1
    simp only [List.map_append, List.map_cons, List.map_nil, foldr_max_append]
    exact Nat.max_eq_right (Nat.le_succ _)
  refine ⟨_, _, _, _, h1, h2, ?_, ?_⟩
  · rw [hmax]
    omega
  · show (((db.edges ++ [(⟨maxEdgeId db + 1, f, rt, t, w, n1, n1⟩ : EdgeRow)]) ++
      [(⟨maxEdgeId { db with edges :=
          db.edges ++ [⟨maxEdgeId db + 1, f, rt, t, w, n1, n1⟩] } + 1,
        f, rt, t, w, n2, n2⟩ : EdgeRow)]).filter
      (fun e => e.from_concept == f && e.relation_type == rt && e.to_concept == t)).length = _
    simp [List.filter_append]

/-! ### Claim theorems: Formula overlay write path (C8) -/

/-- Concrete database for the C8 counterexample: a single concept of
kind "O" (Object — not Information). -/
def c8db : DB :=
  { dbEmpty with concepts := [⟨1, "Product", "", "O", none, "", true, 0, 0⟩] }

/-- C8 counterexample: the claim says attaching a formula to a concept
whose kind is not Information fails with NotFound and attaches no Formula
row.  In the source there is no kind check anywhere on the Formula write
path: attaching a formula to the kind-"O" concept succeeds and stores the
row. -/
theorem setFormula_object_kind_accepted :
    (∃ c ∈ c8db.concepts, c.kind ≠ "I") ∧
    setFormula c8db 1 "expr" "PRICE_P * VOLUME" 5 =
      Except.ok { c8db with formulas := [⟨1, "expr", "PRICE_P * VOLUME", 5⟩] } := by
  constructor
  · exact ⟨⟨1, "Product", "", "O", none, "", true, 0, 0⟩, by decide, by decide⟩
  · decide

/-- C8 amended: `set_formula` succeeds for every existing concept
regardless of its kind, storing the Formula row; it fails — with NotFound
— only when the concept does not exist.  (The Information-only policy of
the spec is not enforced anywhere in the source.) -/
theorem setFormula_succeeds_any_kind (db : DB) (cid : Nat) (lang expr : String)
    (now : Nat)
    (hc : db.concepts.any (fun c => c.id == cid) = true) :
    (∃ db', setFormula db cid lang expr now = Except.ok db' ∧
      (⟨cid, lang, expr, now⟩ : FormulaRow) ∈ db'.formulas) ∧
    (∀ db2 : DB, ∀ cid2 lang2 expr2 now2,
      setFormula db2 cid2 lang2 expr2 now2 = Except.error NavisError.notFound →
      db2.concepts.any (fun c => c.id == cid2) = false) := by
  constructor
  · unfold setFormula
    rw [if_pos hc]
    by_cases hex : db.formulas.any (fun f => f.concept == cid) = true
    · rw [if_pos hex]
      refine ⟨_, rfl, ?_⟩
      rcases List.any_eq_true.mp hex with ⟨f, hf, hfc⟩
      show (⟨cid, lang, expr, now⟩ : FormulaRow) ∈ db.formulas.map _
      refine List.mem_map.mpr ⟨f, hf, ?_⟩
      rw [if_pos hfc]
    · rw [if_neg hex]
      exact ⟨_, rfl, by simp⟩
  · intro db2 cid2 lang2 expr2 now2 h
    by_cases hc2 : db2.concepts.any (fun c => c.id == cid2) = true
    · exfalso
      unfold setFormula at h
      rw [if_pos hc2] at h
      by_cases hex : db2.formulas.any (fun f => f.concept == cid2) = true
      · rw [if_pos hex] at h
        cases h
      · rw [if_neg hex] at h
        cases h
    · simpa using hc2

/-- Witness for the C8 amended theorem at a concrete input: a kind-"P"
(Process) concept accepts a formula row. -/
def c8wdb : DB :=
  { dbEmpty with concepts := [⟨3, "Casting", "", "P", none, "", true, 0, 0⟩] }

theorem setFormula_succeeds_any_kind_witness :
    ∃ db', setFormula c8wdb 3 "expr" "A + B" 9 = Except.ok db' ∧
      (⟨3, "expr", "A + B", 9⟩ : FormulaRow) ∈ db'.formulas :=
  (setFormula_succeeds_any_kind c8wdb 3 "expr" "A + B" 9 (by decide)).1

/-- Concrete database for the C5 witness: two concepts and a base
relation type. -/
def c5db : DB :=
  { dbEmpty with
    concepts := [⟨1, "Product.Slab", "", "O", none, "", true, 0, 0⟩,
                 ⟨2, "I.Price", "", "I", none, "", true, 0, 0⟩],
    relation_types := [⟨7, "describes", some "-?->", "Describes", "", none, true, true, 0, 0⟩] }

theorem createEdge_duplicate_succeeds_witness :
    ∃ db1 e1 db2 e2,
      createEdge c5db 2 7 1 none 4 = Except.ok (db1, e1) ∧
      createEdge db1 2 7 1 none 5 = Except.ok (db2, e2) ∧
      e1 ≠ e2 ∧
      (db2.edges.filter (fun e =>
          e.from_concept == 2 && e.relation_type == 7 && e.to_concept == 1)).length =
        (c5db.edges.filter (fun e =>
          e.from_concept == 2 && e.relation_type == 7 && e.to_concept == 1)).length + 2 :=
  createEdge_duplicate_succeeds c5db 2 7 1 none 4 5 (by decide) (by decide) (by decide)

/-! ### Claim theorems: InfoValue overlay write path (C9) -/

/-- Concrete database for the C9 counterexample: one Information
concept. -/
def c9db : DB :=
  { dbEmpty with concepts := [⟨4, "I.Currency", "", "I", none, "", true, 0, 0⟩] }

/-- C9 counterexample: the claim says a `set_value` with neither
`value_num` nor `value_text` fails with ValidationError and writes
nothing.  The source declares both columns nullable and performs no such
validation anywhere: the write succeeds and stores a row with both values
null. -/
theorem setValue_empty_accepted :
    setValue c9db 4 none none "USD" 6 =
      Except.ok { c9db with info_values := [⟨4, none, none, "USD", 6⟩] } := by
  decide

/-- C9 amended: `set_value` succeeds for every existing concept with any
combination of `value_num`/`value_text` — including both absent — storing
the row as given; it fails (with NotFound) only when the concept does not
exist.  No ValidationError is ever raised. -/
theorem setValue_no_validation (db : DB) (cid : Nat) (vn : Option Int)
    (vt : Option String) (unit : String) (now : Nat)
    (hc : db.concepts.any (fun c => c.id == cid) = true) :
    (∃ db', setValue db cid vn vt unit now = Except.ok db' ∧
      (⟨cid, vn, vt, unit, now⟩ : InfoValueRow) ∈ db'.info_values) ∧
    (∀ db2 : DB, ∀ cid2 vn2 vt2 unit2 now2,
      setValue db2 cid2 vn2 vt2 unit2 now2 ≠
        Except.error NavisError.validationError) := by
  constructor
  · unfold setValue
    rw [if_pos hc]
    by_cases hex : db.info_values.any (fun v => v.concept == cid) = true
    · rw [if_pos hex]
      refine ⟨_, rfl, ?_⟩
      rcases List.any_eq_true.mp hex with ⟨v, hv, hvc⟩
      show (⟨cid, vn, vt, unit, now⟩ : InfoValueRow) ∈ db.info_values.map _
      refine List.mem_map.mpr ⟨v, hv, ?_⟩
      rw [if_pos hvc]
    · rw [if_neg hex]
      exact ⟨_, rfl, by simp⟩
  · intro db2 cid2 vn2 vt2 unit2 now2 h
    unfold setValue at h
    by_cases hc2 : db2.concepts.any (fun c => c.id == cid2) = true
    · rw [if_pos hc2] at h
      by_cases hex : db2.info_values.any (fun v => v.concept == cid2) = true
      · rw [if_pos hex] at h
        cases h
      · rw [if_neg hex] at h
        cases h
    · rw [if_neg hc2] at h
      cases h

theorem setValue_no_validation_witness :
    ∃ db', setValue c9db 4 none (some "EUR") "X" 7 = Except.ok db' ∧
      (⟨4, none, some "EUR", "X", 7⟩ : InfoValueRow) ∈ db'.info_values :=
  (setValue_no_validation c9db 4 none (some "EUR") "X" 7 (by decide)).1

/-! ### Claim theorems: deleting calculation models and blocks (C10) -/

/-- C10: deleting a CalcBlock or a CalcModel can never fail with
ProtectedReference (no PROTECT foreign key targets either table); when the
row exists the deletion succeeds and cascade-deletes exactly the
CalcModelAssembly join rows referencing it — and, for a block, also its
CalcBlockFormula join rows — leaving every other table untouched, even
while the block is still used by one or more models. -/
theorem deleteCalc_cascades_never_protected (db : DB) (bid mid : Nat)
    (hb : db.calc_blocks.any (fun b => b.id == bid) = true)
    (hm : db.calc_models.any (fun m => m.id == mid) = true) :
    (∀ db2 : DB, ∀ b2 : Nat,
      deleteCalcBlock db2 b2 ≠ Except.error NavisError.protectedReference) ∧
    (∀ db2 : DB, ∀ m2 : Nat,
      deleteCalcModel db2 m2 ≠ Except.error NavisError.protectedReference) ∧
    (∃ db', deleteCalcBlock db bid = Except.ok db' ∧
      (∀ b : CalcBlockRow, b ∈ db'.calc_blocks ↔ b ∈ db.calc_blocks ∧ b.id ≠ bid) ∧
      (∀ a : CalcModelAssemblyRow, a ∈ db'.assemblies ↔ a ∈ db.assemblies ∧ a.block ≠ bid) ∧
      (∀ bf : CalcBlockFormulaRow,
        bf ∈ db'.block_formulas ↔ bf ∈ db.block_formulas ∧ bf.block ≠ bid) ∧
      db'.concepts = db.concepts ∧ db'.relation_types = db.relation_types ∧
      db'.edges = db.edges ∧ db'.formulas = db.formulas ∧
      db'.info_values = db.info_values ∧ db'.calc_models = db.calc_models ∧
      db'.edge_attrs = db.edge_attrs) ∧
    (∃ db', deleteCalcModel db mid = Except.ok db' ∧
      (∀ m : CalcModelRow, m ∈ db'.calc_models ↔ m ∈ db.calc_models ∧ m.id ≠ mid) ∧
      (∀ a : CalcModelAssemblyRow, a ∈ db'.assemblies ↔ a ∈ db.assemblies ∧ a.model ≠ mid) ∧
      db'.concepts = db.concepts ∧ db'.relation_types = db.relation_types ∧
      db'.edges = db.edges ∧ db'.formulas = db.formulas ∧
      db'.info_values = db.info_values ∧ db'.calc_blocks = db.calc_blocks ∧
      db'.block_formulas = db.block_formulas ∧ db'.edge_attrs = db.edge_attrs) := by
  refine ⟨?_, ?_, ?_, ?_⟩
  · intro db2 b2 h
    unfold deleteCalcBlock at h
    by_cases hb2 : db2.calc_blocks.any (fun b => b.id == b2) = true
    · rw [if_pos hb2] at h
      cases h
    · rw [if_neg hb2] at h
      cases h
  · intro db2 m2 h
    unfold deleteCalcModel at h
    by_cases hm2 : db2.calc_models.any (fun m => m.id == m2) = true
    · rw [if_pos hm2] at h
      cases h
    · rw [if_neg hm2] at h
      cases h
  · refine ⟨{ db with
        calc_blocks := db.calc_blocks.filter (fun b => !(b.id == bid)),
        assemblies := db.assemblies.filter (fun a => !(a.block == bid)),
        block_formulas := db.block_formulas.filter (fun bf => !(bf.block == bid)) },
      by unfold deleteCalcBlock; rw [if_pos hb], ?_, ?_, ?_,
      rfl, rfl, rfl, rfl, rfl, rfl, rfl⟩
    · intro b
      simp [List.mem_filter]
    · intro a
      simp [List.mem_filter]
    · intro bf
      simp [List.mem_filter]
  · refine ⟨{ db with
        calc_models := db.calc_models.filter (fun m => !(m.id == mid)),
        assemblies := db.assemblies.filter (fun a => !(a.model == mid)) },
      by unfold deleteCalcModel; rw [if_pos hm], ?_, ?_,
      rfl, rfl, rfl, rfl, rfl, rfl, rfl, rfl⟩
    · intro m
      simp [List.mem_filter]
    · intro a
      simp [List.mem_filter]

/-- Concrete database for the C10 witness: block 21 is still used by
model 11 (an assembly row) and carries a formula join row. -/
def c10db : DB :=
  { dbEmpty with
    concepts := [⟨5, "I.F.Capex", "", "I", none, "", true, 0, 0⟩],
    calc_models := [⟨11, "invest.pnl_cf.v1", "", 0⟩],
    calc_blocks := [⟨21, "CAPEX", ""⟩],
    assemblies := [⟨31, 11, 21, 1⟩],
    block_formulas := [⟨41, 21, 5⟩] }

theorem deleteCalc_cascades_never_protected_witness :
    deleteCalcBlock c10db 21 ≠ Except.error NavisError.protectedReference :=
  (deleteCalc_cascades_never_protected c10db 21 11 (by decide) (by decide)).1 c10db 21

/-! ### Claim theorems: concept deletion (C4, C7) -/

/-- Shape of a successful concept deletion, extracted from the collector
embedding. -/
theorem deleteConcept_ok_eq (db : DB) (cid : Nat) (db' : DB)
    (h : deleteConcept db cid = Except.ok db') :
    db' = { db with
      concepts := db.concepts.filter (fun c => !(c.id == cid)),
      edges := db.edges.filter (fun e =>
        !(e.from_concept == cid || e.to_concept == cid)),
      edge_attrs := db.edge_attrs.filter (fun a =>
        !(db.edges.any (fun e =>
          (e.from_concept == cid || e.to_concept == cid) && e.id == a.edge))),
      formulas := db.formulas.filter (fun f => !(f.concept == cid)),
      info_values := db.info_values.filter (fun v => !(v.concept == cid)) } := by
  unfold deleteConcept at h
  by_cases h1 : db.concepts.any (fun c => c.id == cid) = true
  · rw [if_pos h1] at h
    by_cases h2 : conceptProtected db cid = true
    · rw [if_pos h2] at h
      cases h
    · rw [if_neg h2] at h
      exact (Except.ok.inj h).symm
  · rw [if_neg h1] at h
    cases h

/-- Concrete database for the C4 counterexample: a concept carrying both
a Formula row and an InfoValue row, referenced by nothing else. -/
def c4db : DB :=
  { dbEmpty with
    concepts := [⟨6, "I.Metric", "", "I", none, "", true, 0, 0⟩],
    formulas := [⟨6, "expr", "A", 0⟩],
    info_values := [⟨6, some 5, none, "USD", 0⟩] }

/-- C4 counterexample: the claim says deleting a concept fails with
ProtectedReference whenever a ScalarOverlay row (Formula or InfoValue)
references it.  Both overlay foreign keys are declared
`on_delete=CASCADE` in the source, so the deletion succeeds and removes
the overlay rows with the concept. -/
theorem deleteConcept_overlay_not_protecting :
    (∃ f ∈ c4db.formulas, f.concept = 6) ∧
    (∃ v ∈ c4db.info_values, v.concept = 6) ∧
    deleteConcept c4db 6 =
      Except.ok { c4db with concepts := [], formulas := [], info_values := [] } :=
  ⟨⟨⟨6, "expr", "A", 0⟩, by decide, rfl⟩,
   ⟨⟨6, some 5, none, "USD", 0⟩, by decide, rfl⟩, by decide⟩

/-- C4 amended: deleting an existing concept fails with
ProtectedReference — leaving the state unchanged — exactly when a
CalcBlockFormula row or a child concept (the two PROTECT foreign keys)
references it; Formula and InfoValue rows do not block the deletion
(they cascade with it, as do endpoint edges). -/
theorem deleteConcept_protected_iff (db : DB) (cid : Nat)
    (hex : db.concepts.any (fun c => c.id == cid) = true) :
    deleteConcept db cid = Except.error NavisError.protectedReference ↔
      (∃ bf ∈ db.block_formulas, bf.formula_concept = cid) ∨
      (∃ c ∈ db.concepts, c.root_lv2 = some cid) := by
  have hiff : conceptProtected db cid = true ↔
      (∃ bf ∈ db.block_formulas, bf.formula_concept = cid) ∨
      (∃ c ∈ db.concepts, c.root_lv2 = some cid) := by
    unfold conceptProtected
    simp [List.any_eq_true]
  unfold deleteConcept
  rw [if_pos hex]
  by_cases hp : conceptProtected db cid = true
  · rw [if_pos hp]
    exact ⟨fun _ => hiff.mp hp, fun _ => rfl⟩
  · rw [if_neg hp]
    constructor
    · intro h
      cases h
    · intro hrhs
      exact absurd (hiff.mpr hrhs) hp

/-- Concrete database for the C4 witness: concept 1 has a child
concept, so its deletion is blocked. -/
def c4wdb : DB :=
  { dbEmpty with
    concepts := [⟨1, "Product", "", "O", none, "", true, 0, 0⟩,
                 ⟨2, "Product.Slab", "", "O", some 1, "", true, 0, 0⟩] }

theorem deleteConcept_protected_iff_witness :
    deleteConcept c4wdb 1 = Except.error NavisError.protectedReference :=
  (deleteConcept_protected_iff c4wdb 1 (by decide)).mpr
    (Or.inr ⟨⟨2, "Product.Slab", "", "O", some 1, "", true, 0, 0⟩, by decide, rfl⟩)

/-- Concrete database for the C7 counterexample: concept 2 is an edge
endpoint and also carries a Formula row. -/
def c7db : DB :=
  { dbEmpty with
    concepts := [⟨1, "Product", "", "O", none, "", true, 0, 0⟩,
                 ⟨2, "I.Price", "", "I", none, "", true, 0, 0⟩],
    relation_types := [⟨7, "describes", some "-?->", "Describes", "", none, true, true, 0, 0⟩],
    edges := [⟨1, 2, 7, 1, none, 0, 0⟩],
    formulas := [⟨2, "expr", "P", 0⟩] }

/-- Result of deleting concept 2 from `c7db`. -/
def c7db' : DB :=
  { c7db with
    concepts := [⟨1, "Product", "", "O", none, "", true, 0, 0⟩],
    edges := [],
    formulas := [] }

/-- C7 counterexample: the claim says deleting an edge-endpoint concept
removes exactly its endpoint edges and leaves all other rows unchanged.
Deleting concept 2 from `c7db` also removes its Formula row (the
OneToOne is `on_delete=CASCADE`), so the formulas table does change. -/
theorem deleteConcept_not_only_edges :
    deleteConcept c7db 2 = Except.ok c7db' ∧ c7db'.formulas ≠ c7db.formulas := by
  exact ⟨by decide, by decide⟩

/-- C7 amended: a successful concept deletion removes exactly the edges
where the concept is `from_concept` or `to_concept`, together with the
concept row itself, the attribute rows of the removed edges, and the
concept's own Formula/InfoValue overlay rows; every other row — other
concepts, other edges, relation types, calc models/blocks and their join
rows, attributes of surviving edges — is unchanged. -/
theorem deleteConcept_cascade_frame (db : DB) (cid : Nat) (db' : DB)
    (hok : deleteConcept db cid = Except.ok db') :
    (∀ e : EdgeRow, e ∈ db'.edges ↔
      e ∈ db.edges ∧ e.from_concept ≠ cid ∧ e.to_concept ≠ cid) ∧
    (∀ c : ConceptRow, c ∈ db'.concepts ↔ c ∈ db.concepts ∧ c.id ≠ cid) ∧
    (∀ f : FormulaRow, f ∈ db'.formulas ↔ f ∈ db.formulas ∧ f.concept ≠ cid) ∧
    (∀ v : InfoValueRow, v ∈ db'.info_values ↔ v ∈ db.info_values ∧ v.concept ≠ cid) ∧
    (∀ a : EdgeAttributeRow, a ∈ db'.edge_attrs ↔
      a ∈ db.edge_attrs ∧ ∀ e ∈ db.edges,
        ¬((e.from_concept = cid ∨ e.to_concept = cid) ∧ e.id = a.edge)) ∧
    db'.relation_types = db.relation_types ∧
    db'.calc_models = db.calc_models ∧
    db'.calc_blocks = db.calc_blocks ∧
    db'.assemblies = db.assemblies ∧
    db'.block_formulas = db.block_formulas := by
  have hdb' := deleteConcept_ok_eq db cid db' hok
  subst hdb'
  refine ⟨?_, ?_, ?_, ?_, ?_, rfl, rfl, rfl, rfl, rfl⟩
  · intro e
    simp [List.mem_filter, not_or]
  · intro c
    simp [List.mem_filter]
  · intro f
    simp [List.mem_filter]
  · intro v
    simp [List.mem_filter]
  · intro a
    simp [List.mem_filter, List.any_eq_true, not_or]

theorem deleteConcept_cascade_frame_witness :
    (⟨1, 2, 7, 1, none, 0, 0⟩ : EdgeRow) ∈ c7db'.edges ↔
      (⟨1, 2, 7, 1, none, 0, 0⟩ : EdgeRow) ∈ c7db.edges ∧
      (⟨1, 2, 7, 1, none, 0, 0⟩ : EdgeRow).from_concept ≠ 2 ∧
      (⟨1, 2, 7, 1, none, 0, 0⟩ : EdgeRow).to_concept ≠ 2 :=
  (deleteConcept_cascade_frame c7db 2 c7db' (by decide)).1 ⟨1, 2, 7, 1, none, 0, 0⟩

/-! ### Lemmas on the admin concept write paths -/

theorem mem_updateById {l : List ConceptRow} {i : Nat}
    {f : ConceptRow → ConceptRow} {x : ConceptRow}
    (hx : x ∈ updateById l i f) :
    ∃ c, c ∈ l ∧
      (((c.id == i) = true ∧ x = f c) ∨ ((c.id == i) = false ∧ x = c)) := by
  rcases List.mem_map.mp hx with ⟨c, hc, hgc⟩
  by_cases h : (c.id == i) = true
  · refine ⟨c, hc, Or.inl ⟨h, ?_⟩⟩
    rw [← hgc]
    simp [h]
  · refine ⟨c, hc, Or.inr ⟨by simpa using h, ?_⟩⟩
    rw [← hgc]
    simp [h]

theorem image_mem_updateById {l : List ConceptRow} {i : Nat}
    {f : ConceptRow → ConceptRow} {c : ConceptRow} (hc : c ∈ l) :
    (if (c.id == i) = true then f c else c) ∈ updateById l i f :=
  List.mem_map_of_mem _ hc

theorem image_updateById_id {i : Nat} {f : ConceptRow → ConceptRow}
    (hf : ∀ c, (f c).id = i) (c : ConceptRow) :
    (if (c.id == i) = true then f c else c).id = c.id := by
  by_cases h : (c.id == i) = true
  · rw [if_pos h, hf c, eq_of_beq h]
  · rw [if_neg h]

theorem updateById_ids {l : List ConceptRow} {i : Nat}
    {f : ConceptRow → ConceptRow} (hf : ∀ c, (f c).id = i) :
    (updateById l i f).map (fun c => c.id) = l.map (fun c => c.id) := by
  unfold updateById
  rw [List.map_map]
  apply List.map_congr_left
  intro c _
  show (if (c.id == i) = true then f c else c).id = c.id
  exact image_updateById_id hf c

/-- Every admin concept save preserves well-formedness: unique ids,
referential integrity of `root_lv2`, and the depth-2 ownership rule. -/
theorem applyOp_wf (db : DB) (op : AdminOp) (db' : DB)
    (hwf : conceptWf db) (hap : applyOp db op = some db') : conceptWf db' := by
  obtain ⟨hnd, hfk, hd2⟩ := hwf
  have huniq : ∀ ⦃a⦄, a ∈ db.concepts → ∀ ⦃b⦄, b ∈ db.concepts →
      a.id = b.id → a = b := List.inj_on_of_nodup_map hnd
  cases op with
  | saveLevel1 i k l kd act now =>
    simp only [applyOp] at hap
    split at hap
    next c hfind =>
      split at hap
      next hroot =>
        injection hap with h
        subst h
        refine ⟨?_, ?_, ?_⟩
        · show ((updateById db.concepts i (level1Row i k l kd act now)).map
            (fun c => c.id)).Nodup
          rw [updateById_ids (f := level1Row i k l kd act now) (fun c => rfl)]
          exact hnd
        · intro x hx
          rcases mem_updateById hx with ⟨c1, hc1, hcase⟩
          rcases hcase with ⟨hb, hxe⟩ | ⟨hb, hxe⟩
          · subst hxe
            exact Or.inl rfl
          · subst hxe
            rcases hfk x hc1 with hnone | ⟨p, hp, hsome⟩
            · exact Or.inl hnone
            · refine Or.inr ⟨_, image_mem_updateById (f := level1Row i k l kd act now) hp, ?_⟩
              rw [image_updateById_id (f := level1Row i k l kd act now) (fun c => rfl) p]
              exact hsome
        · intro x hx y hy hroot2
          rcases mem_updateById hx with ⟨c1, hc1, hcx⟩
          rcases mem_updateById hy with ⟨p1, hp1, hcy⟩
          rcases hcy with ⟨hby, hye⟩ | ⟨hby, hye⟩
          · subst hye
            rfl
          · subst hye
            rcases hcx with ⟨hbx, hxe⟩ | ⟨hbx, hxe⟩
            · subst hxe
              cases hroot2
            · subst hxe
              exact hd2 x hc1 y hp1 hroot2
      next hroot => cases hap
    next hfind =>
      injection hap with h
      subst h
      have hno : ∀ x ∈ db.concepts, x.id ≠ i := by
        intro x hx he
        exact (List.find?_eq_none.mp hfind x hx) (by simp [he])
      refine ⟨?_, ?_, ?_⟩
      · show ((db.concepts ++
          [(⟨i, k, l, kd, none, "", act, now, now⟩ : ConceptRow)]).map
            (fun c => c.id)).Nodup
        rw [List.map_append]
        simp only [List.map_cons, List.map_nil]
        rw [List.nodup_append]
        refine ⟨hnd, List.nodup_singleton i, ?_⟩
        intro a ha hai
        rcases List.mem_map.mp ha with ⟨c1, hc1, hcid⟩
        rw [List.mem_singleton] at hai
        exact hno c1 hc1 (by rw [hcid, hai])
      · intro x hx
        rcases List.mem_append.mp hx with hx | hx
        · rcases hfk x hx with hnone | ⟨p, hp, hsome⟩
          · exact Or.inl hnone
          · exact Or.inr ⟨p, List.mem_append_left _ hp, hsome⟩
        · rw [List.mem_singleton] at hx
          subst hx
          exact Or.inl rfl
      · intro x hx y hy hroot2
        rcases List.mem_append.mp hy with hy | hy
        · rcases List.mem_append.mp hx with hx | hx
          · exact hd2 x hx y hy hroot2
          · rw [List.mem_singleton] at hx
            subst hx
            cases hroot2
        · rw [List.mem_singleton] at hy
          subst hy
          rfl
  | saveLevel2 i k l r act now =>
    simp only [applyOp] at hap
    split at hap
    next p0 hfr =>
      split at hap
      next hp0root =>
        have hp0mem : p0 ∈ db.concepts := List.mem_of_find?_eq_some hfr
        have hp0beq := List.find?_some hfr
        have hp0id : p0.id = r := eq_of_beq hp0beq
        split at hap
        next c0 hfi =>
          split at hap
          next hc0root =>
            injection hap with h
            subst h
            have hc0mem : c0 ∈ db.concepts := List.mem_of_find?_eq_some hfi
            have hc0beq := List.find?_some hfi
            have hc0id : c0.id = i := eq_of_beq hc0beq
            have hri : r ≠ i := by
              intro h
              subst h
              exact hc0root ((Option.some.inj (hfr.symm.trans hfi)) ▸ hp0root)
            refine ⟨?_, ?_, ?_⟩
            · show ((updateById db.concepts i
                (level2Row i k l r p0.kind act now)).map (fun c => c.id)).Nodup
              rw [updateById_ids (f := level2Row i k l r p0.kind act now) (fun c => rfl)]
              exact hnd
            · intro x hx
              rcases mem_updateById hx with ⟨c1, hc1, hcase⟩
              rcases hcase with ⟨hb, hxe⟩ | ⟨hb, hxe⟩
              · subst hxe
                refine Or.inr ⟨_,
                  image_mem_updateById (f := level2Row i k l r p0.kind act now) hp0mem, ?_⟩
                rw [image_updateById_id (f := level2Row i k l r p0.kind act now)
                  (fun c => rfl) p0, hp0id]
                rfl
              · subst hxe
                rcases hfk x hc1 with hnone | ⟨p, hp, hsome⟩
                · exact Or.inl hnone
                · refine Or.inr ⟨_,
                    image_mem_updateById (f := level2Row i k l r p0.kind act now) hp, ?_⟩
                  rw [image_updateById_id (f := level2Row i k l r p0.kind act now)
                    (fun c => rfl) p]
                  exact hsome
            · intro x hx y hy hroot2
              rcases mem_updateById hx with ⟨c1, hc1, hcx⟩
              rcases mem_updateById hy with ⟨p1, hp1, hcy⟩
              rcases hcx with ⟨hbx, hxe⟩ | ⟨hbx, hxe⟩
              · subst hxe
                have hyid : y.id = r := (Option.some.inj hroot2).symm
                rcases hcy with ⟨hby, hye⟩ | ⟨hby, hye⟩
                · exfalso
                  apply hri
                  rw [← hyid, hye]
                  rfl
                · subst hye
                  have h1 : y = p0 := huniq hp1 hp0mem (by rw [hyid, hp0id])
                  rw [h1]
                  exact hp0root
              · subst hxe
                rcases hcy with ⟨hby, hye⟩ | ⟨hby, hye⟩
                · exfalso
                  have hyid : y.id = i := by
                    rw [hye]
                    rfl
                  apply hc0root
                  apply hd2 x hc1 c0 hc0mem
                  rw [hroot2, hyid, hc0id]
                · subst hye
                  exact hd2 x hc1 y hp1 hroot2
          next hc0root => cases hap
        next hfi =>
          injection hap with h
          subst h
          have hno : ∀ x ∈ db.concepts, x.id ≠ i := by
            intro x hx he
            exact (List.find?_eq_none.mp hfi x hx) (by simp [he])
          refine ⟨?_, ?_, ?_⟩
          · show ((db.concepts ++
              [(⟨i, k, l, p0.kind, some r, "", act, now, now⟩ : ConceptRow)]).map
                (fun c => c.id)).Nodup
            rw [List.map_append]
            simp only [List.map_cons, List.map_nil]
            rw [List.nodup_append]
            refine ⟨hnd, List.nodup_singleton i, ?_⟩
            intro a ha hai
            rcases List.mem_map.mp ha with ⟨c1, hc1, hcid⟩
            rw [List.mem_singleton] at hai
            exact hno c1 hc1 (by rw [hcid, hai])
          · intro x hx
            rcases List.mem_append.mp hx with hx | hx
            · rcases hfk x hx with hnone | ⟨p, hp, hsome⟩
              · exact Or.inl hnone
              · exact Or.inr ⟨p, List.mem_append_left _ hp, hsome⟩
            · rw [List.mem_singleton] at hx
              subst hx
              exact Or.inr ⟨p0, List.mem_append_left _ hp0mem, by rw [hp0id]⟩
          · intro x hx y hy hroot2
            rcases List.mem_append.mp hy with hy | hy
            · rcases List.mem_append.mp hx with hx | hx
              · exact hd2 x hx y hy hroot2
              · rw [List.mem_singleton] at hx
                subst hx
                have hyid : y.id = r := (Option.some.inj hroot2).symm
                have h1 : y = p0 := huniq hy hp0mem (by rw [hyid, hp0id])
                rw [h1]
                exact hp0root
            · rw [List.mem_singleton] at hy
              subst hy
              exfalso
              rcases List.mem_append.mp hx with hx | hx
              · rcases hfk x hx with hnone | ⟨q, hq, hsome⟩
                · rw [hnone] at hroot2
                  cases hroot2
                · have hqid : q.id = i :=
                    Option.some.inj (hsome.symm.trans hroot2)
                  exact hno q hq hqid
              · rw [List.mem_singleton] at hx
                subst hx
                have h1 : r = i := Option.some.inj hroot2
                exact hno p0 hp0mem (by rw [hp0id, h1])
      next hp0root => cases hap
    next hfr => cases hap

/-- Applying any sequence of admin saves preserves well-formedness. -/
theorem applyOps_wf (ops : List AdminOp) :
    ∀ db : DB, conceptWf db → conceptWf (applyOps db ops) := by
  induction ops with
  | nil =>
    intro db h
    exact h
  | cons op rest ih =>
    intro db h
    show conceptWf (applyOps ((applyOp db op).getD db) rest)
    apply ih
    cases hop : applyOp db op with
    | none => exact h
    | some d' => exact applyOp_wf db op d' h hop

/-- C2: in a well-formed state (unique ids, intact `root_lv2` references,
depth ≤ 2), every admin concept save — the only concept write paths the
repository has — preserves the depth-2 ownership invariant (a concept
whose own parent is non-null is never another concept's parent), and
every state reachable from the empty database by admin saves satisfies
it. -/
theorem concept_depth2_invariant :
    (∀ (db : DB) (op : AdminOp) (db' : DB), conceptWf db →
      applyOp db op = some db' → depth2 db' ∧ conceptWf db') ∧
    (∀ ops : List AdminOp, depth2 (applyOps dbEmpty ops)) := by
  constructor
  · intro db op db' hwf hap
    have h := applyOp_wf db op db' hwf hap
    exact ⟨h.2.2, h⟩
  · intro ops
    exact (applyOps_wf ops dbEmpty (by decide)).2.2

/-- Concrete states for the C2 witness: saving "Product.Slab" under the
root "Product" through the level-2 admin. -/
def c2db : DB :=
  { dbEmpty with concepts := [⟨1, "Product", "", "O", none, "", true, 0, 0⟩] }

/-- State after the level-2 admin save of concept 2 under root 1. -/
def c2db' : DB :=
  { dbEmpty with concepts :=
      [⟨1, "Product", "", "O", none, "", true, 0, 0⟩,
       ⟨2, "Product.Slab", "", "O", some 1, "", true, 1, 1⟩] }

theorem concept_depth2_invariant_witness :
    depth2 c2db' ∧ conceptWf c2db' :=
  concept_depth2_invariant.1 c2db
    (AdminOp.saveLevel2 2 "Product.Slab" "" 1 true 1) c2db'
    (by decide) (by decide)

/-- Sequence of admin saves for the C3 counterexample: create root
"Product" with kind O, create child "Product.Slab" (kind copied: O), then
edit the root through the level-1 admin changing its kind to I. -/
def c3ops : List AdminOp :=
  [AdminOp.saveLevel1 1 "Product" "" "O" true 0,
   AdminOp.saveLevel2 2 "Product.Slab" "" 1 true 1,
   AdminOp.saveLevel1 1 "Product" "" "I" true 2]

/-- C3 counterexample: kind equality with the parent is not a global
invariant.  The level-1 admin lets the kind of a root concept be edited
freely (its form exposes `kind` and its `save_model` only forces
`root_lv2 = None`), and nothing propagates the change to existing
children: after `c3ops` the child still has kind "O" while its parent now
has kind "I". -/
theorem kind_inheritance_not_invariant :
    ¬ kindInherit (applyOps dbEmpty c3ops) ∧
    (∃ c ∈ (applyOps dbEmpty c3ops).concepts,
      ∃ p ∈ (applyOps dbEmpty c3ops).concepts,
        c.root_lv2 = some p.id ∧ c.kind ≠ p.kind) := by
  decide

/-- C3 amended: every operation that creates a concept with a parent or
changes a concept's parent — the level-2 admin save, the only such
operation — does set the saved concept's kind to its parent's kind at
that moment; the equality just fails to be a global invariant because a
later level-1 edit of the parent's kind is not propagated. -/
theorem saveLevel2_copies_parent_kind (db : DB) (i : Nat) (k l : String)
    (r : Nat) (act : Bool) (now : Nat) (db' : DB)
    (hnd : idsNodup db)
    (hap : applyOp db (AdminOp.saveLevel2 i k l r act now) = some db') :
    ∀ c ∈ db'.concepts, c.id = i →
      ∀ p ∈ db'.concepts, p.id = r → c.kind = p.kind := by
  have huniq : ∀ ⦃a⦄, a ∈ db.concepts → ∀ ⦃b⦄, b ∈ db.concepts →
      a.id = b.id → a = b := List.inj_on_of_nodup_map hnd
  simp only [applyOp] at hap
  split at hap
  next p0 hfr =>
    split at hap
    next hp0root =>
      have hp0mem : p0 ∈ db.concepts := List.mem_of_find?_eq_some hfr
      have hp0beq := List.find?_some hfr
      have hp0id : p0.id = r := eq_of_beq hp0beq
      split at hap
      next c0 hfi =>
        split at hap
        next hc0root =>
          injection hap with h
          subst h
          have hri : r ≠ i := by
            intro h
            subst h
            exact hc0root
              ((Option.some.inj (hfr.symm.trans hfi)) ▸ hp0root)
          intro c hc hci p hp hpr
          rcases mem_updateById hc with ⟨c1, hc1, hcase⟩
          rcases mem_updateById hp with ⟨p1, hp1, hpcase⟩
          rcases hcase with ⟨hbc, hce⟩ | ⟨hbc, hce⟩
          · rcases hpcase with ⟨hbp, hpe⟩ | ⟨hbp, hpe⟩
            · exfalso
              apply hri
              rw [← hpr, hpe]
              rfl
            · subst hpe
              subst hce
              have h1 : p = p0 := huniq hp1 hp0mem (by rw [hpr, hp0id])
              rw [h1]
              rfl
          · exfalso
            subst hce
            rw [hci] at hbc
            simp at hbc
        next hc0root => cases hap
      next hfi =>
        injection hap with h
        subst h
        have hno : ∀ x ∈ db.concepts, x.id ≠ i := by
          intro x hx he
          exact (List.find?_eq_none.mp hfi x hx) (by simp [he])
        intro c hc hci p hp hpr
        rcases List.mem_append.mp hc with hc | hc
        · exact absurd hci (hno c hc)
        · rw [List.mem_singleton] at hc
          subst hc
          rcases List.mem_append.mp hp with hp | hp
          · have h1 : p = p0 := huniq hp hp0mem (by rw [hpr, hp0id])
            rw [h1]
          · exfalso
            rw [List.mem_singleton] at hp
            subst hp
            exact hno p0 hp0mem (by rw [hp0id, ← hpr])
    next hp0root => cases hap
  next hfr => cases hap

/-- Concrete states for the C3 witness: re-saving the existing child 2
under root 1 through the level-2 admin copies the root's kind. -/
def c3wdb : DB :=
  { dbEmpty with concepts :=
      [⟨1, "Product", "", "O", none, "", true, 0, 0⟩,
       ⟨2, "Product.Slab", "", "O", some 1, "", true, 0, 0⟩] }

/-- State after re-saving child 2 with a new label at time 3. -/
def c3wdb' : DB :=
  { dbEmpty with concepts :=
      [⟨1, "Product", "", "O", none, "", true, 0, 0⟩,
       ⟨2, "Product.Slab", "Slab", "O", some 1, "", true, 0, 3⟩] }

theorem saveLevel2_copies_parent_kind_witness :
    (⟨2, "Product.Slab", "Slab", "O", some 1, "", true, 0, 3⟩ : ConceptRow).kind =
      (⟨1, "Product", "", "O", none, "", true, 0, 0⟩ : ConceptRow).kind :=
  saveLevel2_copies_parent_kind c3wdb 2 "Product.Slab" "Slab" 1 true 3 c3wdb'
    (by decide) (by decide)
    ⟨2, "Product.Slab", "Slab", "O", some 1, "", true, 0, 3⟩ (by decide) rfl
    ⟨1, "Product", "", "O", none, "", true, 0, 0⟩ (by decide) rfl

/-! ### Claim theorems: timestamps and the structural version (C6) -/

theorem filter_map_invariant {α : Type} (t : α → α) (p : α → Bool)
    (hp : ∀ x, p (t x) = p x) :
    ∀ l : List α, (l.map t).filter p = (l.filter p).map t := by
  intro l
  induction l with
  | nil => rfl
  | cons a l ih =>
    simp only [List.map_cons, List.filter_cons, hp a]
    by_cases h : p a = true
    · simp only [h, if_pos, List.map_cons, ih]
    · simp only [eq_false_of_ne_true h, Bool.false_eq_true, if_neg, ih]
      simp

theorem map_map_invariant {α β : Type} (t : α → α) (f : α → β)
    (hf : ∀ x, f (t x) = f x) :
    ∀ l : List α, (l.map t).map f = l.map f := by
  intro l
  induction l with
  | nil => rfl
  | cons a l ih => simp only [List.map_cons, hf a, ih]

theorem flatMap_congr {α β : Type} (l : List α) (f g : α → List β)
    (h : ∀ a ∈ l, f a = g a) : l.flatMap f = l.flatMap g := by
  induction l with
  | nil => rfl
  | cons a l ih =>
    simp only [List.flatMap_cons, h a (List.mem_cons_self a l)]
    rw [ih (fun b hb => h b (List.mem_cons_of_mem a hb))]

theorem flatMap_map_invariant {α β : Type} (t : α → α) (g : α → List β)
    (hg : ∀ x, g (t x) = g x) :
    ∀ l : List α, (l.map t).flatMap g = l.flatMap g := by
  intro l
  induction l with
  | nil => rfl
  | cons a l ih => simp only [List.map_cons, List.flatMap_cons, hg a, ih]

/-- Reordering a model's blocks does not change which formula concepts
its blocks reference. -/
theorem modelFormulaConcepts_reorder (db : DB) (aid n mid : Nat) :
    modelFormulaConcepts (reorderAssembly db aid n) mid =
      modelFormulaConcepts db mid := by
  show ((db.assemblies.map (fun a =>
      if a.id == aid then { a with order_no := n } else a)).filter
        (fun a => a.model == mid)).flatMap (fun a =>
      (db.block_formulas.filter (fun bf => bf.block == a.block)).map
        (fun bf => bf.formula_concept)) =
    (db.assemblies.filter (fun a => a.model == mid)).flatMap (fun a =>
      (db.block_formulas.filter (fun bf => bf.block == a.block)).map
        (fun bf => bf.formula_concept))
  rw [filter_map_invariant _ _ (fun a => by
    by_cases h : (a.id == aid) = true <;> simp [h])]
  exact flatMap_map_invariant _ _ (fun a => by
    by_cases h : (a.id == aid) = true <;> simp [h]) _

/-- Reordering a model's blocks leaves the structural version unchanged:
`calc_model_assembly` has no timestamp column to bump. -/
theorem structuralVersion_reorder (db : DB) (aid n : Nat) (mk : String) :
    structuralVersion (reorderAssembly db aid n) mk = structuralVersion db mk := by
  unfold structuralVersion
  show (match db.calc_models.find? (fun m => m.model_key == mk) with
      | none => 0
      | some m =>
        ((modelFormulaConcepts (reorderAssembly db aid n) m.id).flatMap (fun cid =>
          (describesEdges (reorderAssembly db aid n) cid).map
            (fun e : EdgeRow => e.updated_at))).foldr max 0) =
    (match db.calc_models.find? (fun m => m.model_key == mk) with
      | none => 0
      | some m =>
        ((modelFormulaConcepts db m.id).flatMap (fun cid =>
          (describesEdges db cid).map (fun e : EdgeRow => e.updated_at))).foldr max 0)
  cases db.calc_models.find? (fun m => m.model_key == mk) with
  | none => rfl
  | some m =>
    show ((modelFormulaConcepts (reorderAssembly db aid n) m.id).flatMap (fun cid =>
      (describesEdges (reorderAssembly db aid n) cid).map
        (fun e : EdgeRow => e.updated_at))).foldr max 0 =
      ((modelFormulaConcepts db m.id).flatMap (fun cid =>
        (describesEdges db cid).map (fun e : EdgeRow => e.updated_at))).foldr max 0
    rw [modelFormulaConcepts_reorder db aid n m.id]
    rfl

/-- Updating an edge's weight leaves the updated_at of every describes
edge unchanged, so the per-concept contribution to the structural version
is unchanged. -/
theorem describes_updated_at_weight (db : DB) (eid : Nat) (w : Option Int)
    (cid : Nat) :
    (describesEdges (updateEdgeWeight db eid w) cid).map (fun e => e.updated_at) =
      (describesEdges db cid).map (fun e => e.updated_at) := by
  show (((db.edges.map (fun e => if e.id == eid then { e with weight := w } else e)).filter
      (fun e => e.from_concept == cid &&
        relTypeKey db e.relation_type == some "describes")).map
    (fun e => e.updated_at)) =
    ((db.edges.filter (fun e => e.from_concept == cid &&
        relTypeKey db e.relation_type == some "describes")).map
      (fun e => e.updated_at))
  rw [filter_map_invariant _ _ (fun e => by
    by_cases h : (e.id == eid) = true <;> simp [h])]
  exact map_map_invariant _ _ (fun e => by
    by_cases h : (e.id == eid) = true <;> simp [h]) _

/-- Updating an edge's weight leaves the structural version unchanged:
`Edge.updated_at` has `default=timezone.now` only and is not written on
saves. -/
theorem structuralVersion_update (db : DB) (eid : Nat) (w : Option Int)
    (mk : String) :
    structuralVersion (updateEdgeWeight db eid w) mk = structuralVersion db mk := by
  unfold structuralVersion
  show (match db.calc_models.find? (fun m => m.model_key == mk) with
      | none => 0
      | some m =>
        ((modelFormulaConcepts db m.id).flatMap (fun cid =>
          (describesEdges (updateEdgeWeight db eid w) cid).map
            (fun e : EdgeRow => e.updated_at))).foldr max 0) =
    (match db.calc_models.find? (fun m => m.model_key == mk) with
      | none => 0
      | some m =>
        ((modelFormulaConcepts db m.id).flatMap (fun cid =>
          (describesEdges db cid).map (fun e : EdgeRow => e.updated_at))).foldr max 0)
  cases db.calc_models.find? (fun m => m.model_key == mk) with
  | none => rfl
  | some m =>
    show ((modelFormulaConcepts db m.id).flatMap (fun cid =>
      (describesEdges (updateEdgeWeight db eid w) cid).map
        (fun e : EdgeRow => e.updated_at))).foldr max 0 =
      ((modelFormulaConcepts db m.id).flatMap (fun cid =>
        (describesEdges db cid).map (fun e : EdgeRow => e.updated_at))).foldr max 0
    rw [flatMap_congr (modelFormulaConcepts db m.id) _ _
      (fun cid _ => describes_updated_at_weight db eid w cid)]

/-- C6 amended: the source provides no updated_at bump on mutation —
`calc_model_assembly` and `calc_block_formula` carry no updated_at column
at all, and `Edge.updated_at` is only a creation-time default (read-only
in every admin form) — so reordering a model's blocks or updating an
edge's weight leaves every edge's (id, updated_at), and with it
structural_version(m) = max(updated_at) over the model's describes
edges, exactly unchanged. -/
theorem mutations_leave_structuralVersion_unchanged (db : DB)
    (aid n eid : Nat) (w : Option Int) (mk : String) :
    structuralVersion (reorderAssembly db aid n) mk = structuralVersion db mk ∧
    structuralVersion (updateEdgeWeight db eid w) mk = structuralVersion db mk ∧
    (updateEdgeWeight db eid w).edges.map (fun e => (e.id, e.updated_at)) =
      db.edges.map (fun e => (e.id, e.updated_at)) := by
  refine ⟨structuralVersion_reorder db aid n mk,
    structuralVersion_update db eid w mk, ?_⟩
  exact map_map_invariant _ _ (fun e => by
    by_cases h : (e.id == eid) = true <;> simp [h]) db.edges

/-- Concrete database for the C6 counterexample: model "m" with two
blocks in orders 1 and 2, one formula concept each, and one describes
edge (updated_at = 3) out of the first formula concept. -/
def c6db : DB :=
  { dbEmpty with
    concepts := [⟨10, "I.F.A", "", "I", none, "", true, 0, 0⟩,
                 ⟨11, "I.F.B", "", "I", none, "", true, 0, 0⟩],
    relation_types := [⟨1, "describes", some "-?->", "Describes", "", none, true, true, 0, 0⟩],
    edges := [⟨1, 10, 1, 11, none, 3, 3⟩],
    formulas := [⟨10, "expr", "A", 0⟩, ⟨11, "expr", "B", 0⟩],
    calc_models := [⟨1, "m", "", 0⟩],
    calc_blocks := [⟨1, "B1", ""⟩, ⟨2, "B2", ""⟩],
    assemblies := [⟨1, 1, 1, 1⟩, ⟨2, 1, 2, 2⟩],
    block_formulas := [⟨1, 1, 10⟩, ⟨2, 2, 11⟩] }

/-- C6 counterexample: updating edge 1's weight leaves its updated_at at
3 (no bump), and reordering block 1 to position 5 changes the resolved
execution plan while structural_version stays exactly 3 — it does not
strictly increase on a change that alters the plan, and no updated_at of
a CalcModelAssembly/CalcBlockFormula row can be bumped because those
tables have no such column. -/
theorem structural_version_claim_fails :
    (updateEdgeWeight c6db 1 (some 7)).edges = [⟨1, 10, 1, 11, some 7, 3, 3⟩] ∧
    resolveModel (reorderAssembly c6db 1 5) "m" ≠ resolveModel c6db "m" ∧
    structuralVersion (reorderAssembly c6db 1 5) "m" = structuralVersion c6db "m" ∧
    structuralVersion (updateEdgeWeight c6db 1 (some 7)) "m" = structuralVersion c6db "m" ∧
    structuralVersion c6db "m" = 3 := by
  decide

/-! ### Claim theorems: deterministic ordered model resolution (C1) -/

/-- A successful `withExprs` keeps the reference keys in order and stamps
every entry with the block's order and id. -/
theorem withExprs_ok (db : DB) (ordNo bid : Nat) :
    ∀ (l : List (String × Nat)) (ys : List PlanEntry),
      withExprs db ordNo bid l = Except.ok ys →
      ys.map (fun e => e.concept_key) = l.map (fun x => x.1) ∧
      ∀ e ∈ ys, e.order_no = ordNo ∧ e.block = bid := by
  intro l
  induction l with
  | nil =>
    intro ys h
    simp only [withExprs] at h
    injection h with h
    subst h
    exact ⟨rfl, fun e he => absurd he (List.not_mem_nil e)⟩
  | cons x rest ih =>
    intro ys h
    obtain ⟨k, cid⟩ := x
    simp only [withExprs] at h
    split at h
    next hf => cases h
    next f hf =>
      split at h
      next l' hrec =>
        injection h with h
        subst h
        obtain ⟨ih1, ih2⟩ := ih l' hrec
        constructor
        · simp only [List.map_cons, ih1]
        · intro e he
          rcases List.mem_cons.mp he with he | he
          · subst he
            exact ⟨rfl, rfl⟩
          · exact ih2 e he
      next er hrec => cases h

/-- `strLeB` is total. -/
theorem strLeB_total : ∀ as bs : List Char,
    strLeB as bs = true ∨ strLeB bs as = true := by
  intro as
  induction as with
  | nil =>
    intro bs
    exact Or.inl rfl
  | cons a as ih =>
    intro bs
    cases bs with
    | nil => exact Or.inr rfl
    | cons b bs =>
      by_cases h1 : a.toNat < b.toNat
      · left
        simp [strLeB, h1]
      · by_cases h2 : b.toNat < a.toNat
        · right
          simp [strLeB, h2]
        · rcases ih bs with h | h
          · left
            simp [strLeB, h1, h2, h]
          · right
            simp [strLeB, h1, h2, h]

/-- `strLeB` is transitive. -/
theorem strLeB_trans : ∀ as bs cs : List Char,
    strLeB as bs = true → strLeB bs cs = true → strLeB as cs = true := by
  intro as
  induction as with
  | nil =>
    intro bs cs _ _
    rfl
  | cons a as ih =>
    intro bs cs h1 h2
    cases bs with
    | nil => simp [strLeB] at h1
    | cons b bs =>
      cases cs with
      | nil => simp [strLeB] at h2
      | cons c cs =>
        by_cases hab : a.toNat < b.toNat
        · by_cases hbc : b.toNat < c.toNat
          · have hac : a.toNat < c.toNat := Nat.lt_trans hab hbc
            simp [strLeB, hac]
          · by_cases hcb : c.toNat < b.toNat
            · simp [strLeB, hbc, hcb] at h2
            · have hbc' : b.toNat = c.toNat :=
                Nat.le_antisymm (Nat.le_of_not_lt hcb) (Nat.le_of_not_lt hbc)
              have hac : a.toNat < c.toNat := hbc' ▸ hab
              simp [strLeB, hac]
        · by_cases hba : b.toNat < a.toNat
          · simp [strLeB, hab, hba] at h1
          · have hab' : a.toNat = b.toNat :=
              Nat.le_antisymm (Nat.le_of_not_lt hba) (Nat.le_of_not_lt hab)
            simp only [strLeB, if_neg hab, if_neg hba] at h1
            by_cases hbc : b.toNat < c.toNat
            · have hac : a.toNat < c.toNat := hab' ▸ hbc
              simp [strLeB, hac]
            · by_cases hcb : c.toNat < b.toNat
              · simp [strLeB, hbc, hcb] at h2
              · simp only [strLeB, if_neg hbc, if_neg hcb] at h2
                have hac1 : ¬ a.toNat < c.toNat := by
                  rw [hab']
                  exact hbc
                have hca1 : ¬ c.toNat < a.toNat := by
                  rw [hab']
                  exact hcb
                simp only [strLeB, if_neg hac1, if_neg hca1]
                exact ih bs cs h1 h2

theorem keyLe_total (s t : String) : keyLe s t = true ∨ keyLe t s = true :=
  strLeB_total s.data t.data

theorem keyLe_trans (s t u : String) (h1 : keyLe s t = true)
    (h2 : keyLe t u = true) : keyLe s u = true :=
  strLeB_trans s.data t.data u.data h1 h2

/-- A successful `blockPlan` produces entries of that block only, with
their concept keys sorted ascending. -/
theorem blockPlan_ok (db : DB) (a : CalcModelAssemblyRow)
    (ys : List PlanEntry) (h : blockPlan db a = Except.ok ys) :
    (∀ e ∈ ys, e.order_no = a.order_no ∧ e.block = a.block) ∧
    ys.Pairwise (fun x y => keyLe x.concept_key y.concept_key = true) := by
  unfold blockPlan at h
  split at h
  next e hrk => cases h
  next refs hrk =>
    obtain ⟨hmap, hattr⟩ := withExprs_ok db a.order_no a.block _ ys h
    refine ⟨hattr, ?_⟩
    have h1 : (sortLe (fun x y : String × Nat => keyLe x.1 y.1) refs).Pairwise
        (fun x y => keyLe x.1 y.1 = true) :=
      pairwise_sortLe (fun x y : String × Nat => keyLe x.1 y.1)
        (fun x y => keyLe_total x.1 y.1)
        (fun x y z hxy hyz => keyLe_trans x.1 y.1 z.1 hxy hyz)
        refs
    have h2 : ((sortLe (fun x y : String × Nat => keyLe x.1 y.1) refs).map
        (fun x => x.1)).Pairwise (fun s1 s2 : String => keyLe s1 s2 = true) :=
      List.pairwise_map.mpr h1
    rw [← hmap] at h2
    exact List.pairwise_map.mp h2

/-- Every entry of a successfully resolved row list carries the order and
block id of one of its assembly rows. -/
theorem resolveRows_entries (db : DB) :
    ∀ (rows : List CalcModelAssemblyRow) (plan : List PlanEntry),
      resolveRows db rows = Except.ok plan →
      ∀ e ∈ plan, ∃ a ∈ rows, e.order_no = a.order_no ∧ e.block = a.block := by
  intro rows
  induction rows with
  | nil =>
    intro plan h e he
    simp only [resolveRows] at h
    injection h with h
    subst h
    cases he
  | cons a rest ih =>
    intro plan h e he
    simp only [resolveRows] at h
    split at h
    next er hbp => cases h
    next l hbp =>
      split at h
      next er hrr => cases h
      next ls hrr =>
        injection h with h
        subst h
        rcases List.mem_append.mp he with he | he
        · obtain ⟨hattr, _⟩ := blockPlan_ok db a l hbp
          exact ⟨a, List.mem_cons_self a rest, (hattr e he).1, (hattr e he).2⟩
        · obtain ⟨b, hb, h1, h2⟩ := ih ls hrr e he
          exact ⟨b, List.mem_cons_of_mem a hb, h1, h2⟩

/-- Resolving assembly rows sorted by order_no with pairwise-distinct
blocks yields a plan sorted by order_no whose entries are key-sorted
within each block. -/
theorem resolveRows_sorted (db : DB) :
    ∀ (rows : List CalcModelAssemblyRow) (plan : List PlanEntry),
      resolveRows db rows = Except.ok plan →
      rows.Pairwise (fun a b => a.order_no ≤ b.order_no) →
      rows.Pairwise (fun a b => a.block ≠ b.block) →
      plan.Pairwise (fun x y => x.order_no ≤ y.order_no) ∧
      plan.Pairwise (fun x y =>
        x.block = y.block → keyLe x.concept_key y.concept_key = true) := by
  intro rows
  induction rows with
  | nil =>
    intro plan h _ _
    simp only [resolveRows] at h
    injection h with h
    subst h
    exact ⟨List.Pairwise.nil, List.Pairwise.nil⟩
  | cons a rest ih =>
    intro plan h hord hblk
    simp only [resolveRows] at h
    split at h
    next er hbp => cases h
    next l hbp =>
      split at h
      next er hrr => cases h
      next ls hrr =>
        injection h with h
        subst h
        obtain ⟨hattr, hkeys⟩ := blockPlan_ok db a l hbp
        obtain ⟨ih1, ih2⟩ := ih ls hrr (List.pairwise_cons.mp hord).2
          (List.pairwise_cons.mp hblk).2
        constructor
        · rw [List.pairwise_append]
          refine ⟨?_, ih1, ?_⟩
          · exact List.pairwise_of_forall_mem_list (fun x hx y hy => by
              rw [(hattr x hx).1, (hattr y hy).1])
          · intro x hx y hy
            obtain ⟨b, hb, hy1, hy2⟩ := resolveRows_entries db rest ls hrr y hy
            rw [(hattr x hx).1, hy1]
            exact (List.pairwise_cons.mp hord).1 b hb
        · rw [List.pairwise_append]
          refine ⟨?_, ih2, ?_⟩
          · exact hkeys.imp (fun {x y} h => fun _ => h)
          · intro x hx y hy hxy
            exfalso
            obtain ⟨b, hb, hy1, hy2⟩ := resolveRows_entries db rest ls hrr y hy
            apply (List.pairwise_cons.mp hblk).1 b hb
            rw [← (hattr x hx).2, ← hy2]
            exact hxy

/-- C1: `resolve_model` is deterministic — it is a pure function of the
stored state, so repeated calls with unchanged data return the identical
ordered sequence — and, provided the stored assembly rows respect the
unique (model, block) constraint, every successfully resolved plan lists
its blocks in ascending order_no with the formula-concept references
inside each block sorted by concept key, concatenated in block order. -/
theorem resolveModel_deterministic_ordered (db : DB) (mk : String)
    (plan : List PlanEntry)
    (huniq : db.assemblies.Pairwise (fun a b => a.model ≠ b.model ∨ a.block ≠ b.block))
    (hok : resolveModel db mk = Except.ok plan) :
    resolveModel db mk = resolveModel db mk ∧
    plan.Pairwise (fun x y => x.order_no ≤ y.order_no) ∧
    plan.Pairwise (fun x y =>
      x.block = y.block → keyLe x.concept_key y.concept_key = true) := by
  refine ⟨rfl, ?_⟩
  unfold resolveModel at hok
  split at hok
  next hfm => cases hok
  next m hfm =>
    have hsort : (sortLe (fun a b : CalcModelAssemblyRow => decide (a.order_no ≤ b.order_no))
        (db.assemblies.filter (fun a => a.model == m.id))).Pairwise
          (fun a b => a.order_no ≤ b.order_no) :=
      (pairwise_sortLe (fun a b : CalcModelAssemblyRow => decide (a.order_no ≤ b.order_no))
        (fun a b => by
          rcases Nat.le_total a.order_no b.order_no with h | h
          · exact Or.inl (decide_eq_true h)
          · exact Or.inr (decide_eq_true h))
        (fun a b c hab hbc => decide_eq_true
          (Nat.le_trans (of_decide_eq_true hab) (of_decide_eq_true hbc)))
        _).imp (fun h => of_decide_eq_true h)
    have hfilter : (db.assemblies.filter (fun a => a.model == m.id)).Pairwise
        (fun a b => a.block ≠ b.block) := by
      have h1 := huniq.filter (fun a => a.model == m.id)
      have h2 := List.Pairwise.and_mem.mp h1
      refine h2.imp ?_
      intro a b hm
      obtain ⟨ha, hb, hr⟩ := hm
      rcases hr with hr | hr
      · exfalso
        apply hr
        have hpa := List.of_mem_filter ha
        have hpb := List.of_mem_filter hb
        have ha' : a.model = m.id := eq_of_beq hpa
        have hb' : b.model = m.id := eq_of_beq hpb
        rw [ha', hb']
      · exact hr
    have hblk : (sortLe (fun a b : CalcModelAssemblyRow => decide (a.order_no ≤ b.order_no))
        (db.assemblies.filter (fun a => a.model == m.id))).Pairwise
          (fun a b => a.block ≠ b.block) :=
      (List.Perm.pairwise_iff (fun h he => h he.symm)
        (perm_sortLe _ _)).mpr hfilter
    exact resolveRows_sorted db _ plan hok hsort hblk

/-- Concrete database for the C1 witness: model "m" has block 2 at
order 1 and block 1 at order 2; block 1 holds two formula concepts whose
keys are out of insertion order. -/
def c1db : DB :=
  { dbEmpty with
    concepts := [⟨10, "z.f", "", "I", none, "", true, 0, 0⟩,
                 ⟨11, "a.f", "", "I", none, "", true, 0, 0⟩,
                 ⟨12, "k.f", "", "I", none, "", true, 0, 0⟩],
    formulas := [⟨10, "expr", "Z", 0⟩, ⟨11, "expr", "A", 0⟩, ⟨12, "expr", "K", 0⟩],
    calc_models := [⟨1, "m", "", 0⟩],
    calc_blocks := [⟨1, "B1", ""⟩, ⟨2, "B2", ""⟩],
    assemblies := [⟨1, 1, 1, 2⟩, ⟨2, 1, 2, 1⟩],
    block_formulas := [⟨1, 1, 10⟩, ⟨2, 1, 11⟩, ⟨3, 2, 12⟩] }

/-- The plan resolved from `c1db`: block 2 (order 1) first, then block 1
(order 2) with its two entries sorted by concept key. -/
def c1plan : List PlanEntry :=
  [⟨1, 2, "k.f", "K"⟩, ⟨2, 1, "a.f", "A"⟩, ⟨2, 1, "z.f", "Z"⟩]

theorem resolveModel_deterministic_ordered_witness :
    resolveModel c1db "m" = resolveModel c1db "m" ∧
    c1plan.Pairwise (fun x y => x.order_no ≤ y.order_no) ∧
    c1plan.Pairwise (fun x y =>
      x.block = y.block → keyLe x.concept_key y.concept_key = true) :=
  resolveModel_deterministic_ordered c1db "m" c1plan (by decide) (by decide)

end Navis
